import Mathlib

/-!
Verification of the Excel-Formula-Formatter core
(`excel_formula_formatter/modular_excel_formatter.py` and the translator
modules).  The Python code is shallowly embedded over `List Char`: every
definition below mirrors one Python function of the repository, keeping the
source's control flow (regexes are expanded into the deterministic scans they
denote on the patterns actually used).  `*Spec` definitions, clearly marked,
restate the natural-language specification for refinement claims.
-/

namespace ExcelFmt

/-! ## Character classes (Python `str.isspace`, regex classes) -/

/-- Python `str.isspace` restricted to the ASCII whitespace actually involved:
space, tab, newline, carriage return, vertical tab, form feed. -/
def pyIsSpace (c : Char) : Bool :=
  c = ' ' || c = '\t' || c = '\n' || c = '\x0d' || c = '\x0b' || c = '\x0c'

/-- Regex word character `[A-Za-z0-9_]` (ASCII, as the patterns use). -/
def isWordChar (c : Char) : Bool :=
  (('A' ≤ c && c ≤ 'Z') || ('a' ≤ c && c ≤ 'z') || ('0' ≤ c && c ≤ '9') || c = '_')

/-- `[A-Z]`. -/
def isUpperCh (c : Char) : Bool := 'A' ≤ c && c ≤ 'Z'

/-- `[0-9]`. -/
def isDigitCh (c : Char) : Bool := '0' ≤ c && c ≤ '9'

/-- Member of the single-character operator set `+-*/=<>&` of the tokenizer. -/
def isOpChar (c : Char) : Bool :=
  c = '+' || c = '-' || c = '*' || c = '/' || c = '=' || c = '<' || c = '>' || c = '&'

/-- Member of the punctuation set `(),[]:;!%^` of the tokenizer. -/
def isPunctChar (c : Char) : Bool :=
  c = '(' || c = ')' || c = ',' || c = '[' || c = ']' || c = ':' || c = ';' ||
  c = '!' || c = '%' || c = '^'

/-- Characters that terminate the word-accumulation loop of
`_parse_excel_tokens` (whitespace handled separately): the set
`+-*/=<>(),[]:;!&%^"`. -/
def isWordStop (c : Char) : Bool := isOpChar c || isPunctChar c || c = '"'

/-! ## Generic Python string helpers on `List Char` -/

/-- Python `str.strip()` (both ends). -/
def pyStrip (s : List Char) : List Char :=
  ((s.dropWhile pyIsSpace).reverse.dropWhile pyIsSpace).reverse

/-- Python `str.rstrip()`. -/
def pyRStrip (s : List Char) : List Char :=
  (s.reverse.dropWhile pyIsSpace).reverse

/-- Python `str.lstrip()`. -/
def pyLStrip (s : List Char) : List Char := s.dropWhile pyIsSpace

/-- Python `str.split('\n')` (keeps empty pieces). -/
def splitNl (s : List Char) : List (List Char) :=
  go [] s
where
  /-- Accumulates the current piece in reverse. -/
  go (acc : List Char) : List Char → List (List Char)
    | [] => [acc.reverse]
    | c :: r => if c = '\n' then acc.reverse :: go [] r else go (c :: acc) r

/-- Python `'\n'.join(lines)`. -/
def joinNl : List (List Char) → List Char
  | [] => []
  | [l] => l
  | l :: r => l ++ '\n' :: joinNl r

/-- Substring test: does `pat` occur inside `s` (Python `pat in s`)? -/
def containsSub (s pat : List Char) : Bool :=
  match s with
  | [] => pat.isEmpty
  | _ :: r => pat.isPrefixOf s || containsSub r pat

/-- Python `str.lower()` for ASCII. -/
def toLowerList (s : List Char) : List Char := s.map Char.toLower

/-- Python `str.upper()` for ASCII. -/
def toUpperList (s : List Char) : List Char := s.map Char.toUpper

/-! ## The cell-reference regex

`cell_ref_all_rgx = \b(?:[A-Za-z0-9_]+!)?[A-Z]+\$?\d+(?::[A-Z]+\$?\d+)?\b`,
matched at the start of `s` (Python `re.match` at a position).  The
backtracking behaviour of the pattern is deterministic on this shape (the
greedy `+` runs can never profitably shrink); the scan below returns the
number of characters the successful match consumes. -/

/-- Matcher for the core piece `[A-Z]+\$?\d+`: number of chars consumed. -/
def coreLen (s : List Char) : Option Nat :=
  let u := (s.takeWhile isUpperCh).length
  if u = 0 then none
  else
    match s.drop u with
    | '$' :: s2 =>
        let d := (s2.takeWhile isDigitCh).length
        if d = 0 then none else some (u + 1 + d)
    | s1 =>
        let d := (s1.takeWhile isDigitCh).length
        if d = 0 then none else some (u + d)

/-- Trailing `\b`: position boundary holds when the rest starts with a
non-word character (or the input ends).  The matched text always ends in a
digit, so the boundary reduces to this test. -/
def boundaryOk (s : List Char) : Bool :=
  match s with
  | [] => true
  | c :: _ => !isWordChar c

/-- `[A-Z]+\$?\d+(?::[A-Z]+\$?\d+)?\b`: core, optional range, trailing
boundary, with the regex's fallback from a failed range to the plain core. -/
def coreThenLen (s : List Char) : Option Nat :=
  match coreLen s with
  | none => none
  | some n =>
    match s.drop n with
    | ':' :: s2 =>
        (match coreLen s2 with
         | some n2 =>
             if boundaryOk (s2.drop n2) then some (n + 1 + n2)
             else if boundaryOk (s.drop n) then some n else none
         | none => if boundaryOk (s.drop n) then some n else none)
    | s1 => if boundaryOk s1 then some n else none

/-- Full `cell_ref_all_rgx` match at a position whose preceding character has
word-character status `prevW` (the leading `\b`).  Tries the sheet-qualified
alternative first, as the greedy optional group does. -/
def cellRefLen (prevW : Bool) (s : List Char) : Option Nat :=
  if prevW then none
  else
    let sheet :=
      let w := (s.takeWhile isWordChar).length
      if w = 0 then none
      else
        match s.drop w with
        | '!' :: s2 =>
            (match coreThenLen s2 with
             | some n => some (w + 1 + n)
             | none => none)
        | _ => none
    match sheet with
    | some n => some n
    | none => coreThenLen s

/-- `cell_ref_all_rgx.match(text)` used as a boolean (classification and the
JavaScript reverse transform): a match exists at the start of a fresh
string. -/
def startsCellRef (s : List Char) : Bool := (cellRefLen false s).isSome

/-! ## Token classification (`_classify_token`) -/

/-- The alternatives of `excel_functions_rgx` (upper-case spellings). -/
def excelFunctionNames : List (List Char) :=
  ["SUM", "IF", "VLOOKUP", "HLOOKUP", "INDEX", "MATCH", "SUMIF", "SUMIFS",
   "COUNTIF", "COUNTIFS", "AVERAGEIF", "AVERAGEIFS", "LEN", "MID", "LEFT",
   "RIGHT", "FIND", "SEARCH", "SUBSTITUTE", "CONCATENATE", "TEXT", "VALUE",
   "DATE", "TODAY", "NOW", "YEAR", "MONTH", "DAY", "WEEKDAY", "WORKDAY",
   "NETWORKDAYS", "PMT", "PV", "FV", "RATE", "NPER", "NPV", "IRR", "AND",
   "OR", "NOT", "ISERROR", "ISBLANK", "ISNUMBER", "ISTEXT", "CHOOSE",
   "INDIRECT", "OFFSET", "ROW", "COLUMN", "ROWS", "COLUMNS", "COUNTA",
   "COUNT", "MAX", "MIN", "AVERAGE", "MEDIAN", "MODE", "STDEV", "VAR",
   "ROUND", "ROUNDUP", "ROUNDDOWN", "INT", "ABS", "SQRT", "POWER", "EXP",
   "LN", "LOG", "LOG10", "SIN", "COS", "TAN", "ASIN", "ACOS", "ATAN", "PI",
   "RAND", "RANDBETWEEN", "LET", "LAMBDA", "MAP", "FILTER", "SORT", "UNIQUE",
   "SEQUENCE", "XLOOKUP", "XMATCH", "IFS", "SWITCH", "TEXTJOIN",
   "CONCAT"].map String.toList

/-- One alternative of `excel_functions_rgx` matches at the start of `tok`:
case-insensitive name followed by a word boundary. -/
def fnAltMatches (tok : List Char) (name : List Char) : Bool :=
  name.isPrefixOf (toUpperList tok) && boundaryOk (tok.drop name.length)

/-- `excel_functions_rgx.match(token)` as a boolean (the leading `\b` holds on
a fresh string whose first character is a letter). -/
def excelFnMatch (tok : List Char) : Bool :=
  excelFunctionNames.any (fnAltMatches tok)

/-- `number_rgx = \b\d+(?:\.\d+)?\b` matched at the start of `tok`.  When
the boundary after a matched fraction fails, the regex backtracks to the
empty optional group and re-checks the boundary after the integer digits
(which holds, since the next character is the non-word `.`). -/
def numberMatch (tok : List Char) : Bool :=
  let d := (tok.takeWhile isDigitCh).length
  if d = 0 then false
  else
    match tok.drop d with
    | '.' :: s2 =>
        let f := (s2.takeWhile isDigitCh).length
        if f = 0 then boundaryOk (tok.drop d)
        else if boundaryOk (s2.drop f) then true
        else boundaryOk (tok.drop d)
    | s1 => boundaryOk s1

/-- Token kinds of `_parse_excel_tokens`. -/
inductive TokType where
  | str | cellRef | operator | punct | function | number | identifier
deriving DecidableEq, Repr

/-- A token: kind plus its exact text. -/
structure Token where
  kind : TokType
  text : List Char
deriving DecidableEq, Repr

/-- `_classify_token`. -/
def classifyToken (tok : List Char) : TokType :=
  if excelFnMatch tok then .function
  else if startsCellRef tok then .cellRef
  else if numberMatch tok then .number
  else if tok = "<>".toList || tok = ">=".toList || tok = "<=".toList ||
          tok = "==".toList || tok = "!=".toList then .operator
  else .identifier

/-! ## The tokenizer (`_parse_excel_tokens`)

Fuel-indexed so every equation is a definitional reduction; the top-level
entry point supplies `length + 1` fuel, which the progress argument (each
iteration consumes at least one character) makes sufficient. -/

/-- Word-character status of the last character consumed (threads the
lookbehind of the leading `\b` of `cell_ref_all_rgx` through the scan). -/
def lastWord (dft : Bool) (m : List Char) : Bool :=
  match m.getLast? with
  | none => dft
  | some c => isWordChar c

/-- One pass of the `while i < length` loop of `_parse_excel_tokens`. -/
def tokenizeFuel : Nat → Bool → List Char → List Token
  | 0, _, _ => []
  | _ + 1, _, [] => []
  | fuel + 1, prevW, c :: rest =>
    if pyIsSpace c then tokenizeFuel fuel false rest
    else if c = '"' then
      let inside := rest.takeWhile (fun ch => ch ≠ '"')
      match rest.dropWhile (fun ch => ch ≠ '"') with
      | [] => [⟨.str, c :: inside⟩]
      | q :: rest2 => ⟨.str, c :: inside ++ [q]⟩ :: tokenizeFuel fuel false rest2
    else
      match cellRefLen prevW (c :: rest) with
      | some n =>
          ⟨.cellRef, (c :: rest).take n⟩ ::
            tokenizeFuel fuel (lastWord prevW ((c :: rest).take n)) ((c :: rest).drop n)
      | none =>
        match rest with
        | r1 :: rest2 =>
          if (c = '<' && r1 = '>') || (c = '>' && r1 = '=') || (c = '<' && r1 = '=') then
            ⟨.operator, [c, r1]⟩ :: tokenizeFuel fuel false rest2
          else if isOpChar c then ⟨.operator, [c]⟩ :: tokenizeFuel fuel false rest
          else if isPunctChar c then ⟨.punct, [c]⟩ :: tokenizeFuel fuel false rest
          else
            let w := c :: rest.takeWhile (fun ch => !pyIsSpace ch && !isWordStop ch)
            ⟨classifyToken w, w⟩ ::
              tokenizeFuel fuel (lastWord prevW w)
                (rest.dropWhile (fun ch => !pyIsSpace ch && !isWordStop ch))
        | [] =>
          if isOpChar c then [⟨.operator, [c]⟩]
          else if isPunctChar c then [⟨.punct, [c]⟩]
          else [⟨classifyToken [c], [c]⟩]

/-- `_parse_excel_tokens` on a cleaned formula body. -/
def parseExcelTokens (s : List Char) : List Token :=
  tokenizeFuel (s.length + 1) false s

/-! ## The three registered translators -/

/-- The three registered modes: JavaScript, Annotated Excel, Plain Excel. -/
inductive Mode where
  | j | a | p
deriving DecidableEq, Repr

/-- `format_header_comment`. -/
def headerComment : Mode → List Char
  | .j => "// Excel Formula (JavaScript syntax for highlighting)".toList
  | .a => "// Excel Formula (annotated Excel syntax with smart indenting)".toList
  | .p => []

/-- `format_section_comment`. -/
def sectionComment (m : Mode) (c : List Char) : List Char :=
  match m with
  | .p => []
  | _ => "// ".toList ++ c

/-- `format_function_call`: all three translators keep the original text. -/
def fmtFunctionCall (_ : Mode) (name : List Char) : List Char := name

/-- `format_cell_reference`: JavaScript quotes, Excel modes keep unquoted. -/
def fmtCellReference (m : Mode) (ref : List Char) : List Char :=
  match m with
  | .j => '"' :: ref ++ ['"']
  | _ => ref

/-- `format_string_literal`: already quoted, unchanged in every mode. -/
def fmtStringLiteral (_ : Mode) (s : List Char) : List Char := s

/-- `format_number`: unchanged in every mode. -/
def fmtNumber (_ : Mode) (n : List Char) : List Char := n

/-- `format_operator`: JavaScript renders `<>` as ` != ` and pads, annotated
pads, plain keeps the operator bare. -/
def fmtOperator (m : Mode) (op : List Char) : List Char :=
  match m with
  | .j => if op = "<>".toList then " != ".toList else ' ' :: op ++ [' ']
  | .a => ' ' :: op ++ [' ']
  | .p => op

/-- `format_punctuation`: every mode pads function parentheses. -/
def fmtPunctuation (_ : Mode) (p : List Char) : List Char :=
  if p = "(".toList then "( ".toList
  else if p = ")".toList then " )".toList
  else p

/-- `SyntaxTranslatorBase.indent` with the default `indent_size = 4`. -/
def indentOf (d : Nat) : List Char := List.replicate (d * 4) ' '

/-- The `get_function_comment` lookup table. -/
def functionComments : List (List Char × List Char) :=
  [("SUM", "Sum values"), ("IF", "Conditional logic"),
   ("VLOOKUP", "Vertical lookup"), ("HLOOKUP", "Horizontal lookup"),
   ("INDEX", "Index lookup"), ("MATCH", "Find position"),
   ("SUMIF", "Conditional sum"), ("SUMIFS", "Multiple criteria sum"),
   ("COUNTIF", "Conditional count"), ("COUNTIFS", "Multiple criteria count"),
   ("CONCATENATE", "Text concatenation"),
   ("TEXTJOIN", "Join text with delimiter"), ("LET", "Variable assignments"),
   ("LAMBDA", "Function definition"), ("AND", "Logical AND"),
   ("OR", "Logical OR"), ("NOT", "Logical NOT"), ("FILTER", "Filter array"),
   ("SORT", "Sort array"), ("UNIQUE", "Unique values"),
   ("XLOOKUP", "Extended lookup"), ("XMATCH", "Extended match"),
   ("IFS", "Multiple conditions")].map
    (fun pr => (pr.1.toList, pr.2.toList))

/-- `get_function_comment` (`comments.get(function_name.upper(), '')`). -/
def getFunctionComment (name : List Char) : List Char :=
  match functionComments.find? (fun pr => pr.1 = toUpperList name) with
  | some pr => pr.2
  | none => []

/-! ## Argument-group splitting (`_split_by_top_level_commas`) -/

/-- Does a group hold any non-whitespace text (the final filter's
`token_text.strip()` test)? -/
def groupHasContent (g : List Token) : Bool :=
  g.any (fun t => !(pyStrip t.text).isEmpty)

/-- The group-building loop of `_split_by_top_level_commas`: `acc` is the
current group in reverse, `depth` the parenthesis depth (a Python `int`, so it
may go negative on unbalanced input). -/
def splitCommasDepth (acc : List Token) (depth : Int) : List Token → List (List Token)
  | [] => if acc.isEmpty then [] else [acc.reverse]
  | t :: r =>
    if t.text = "(".toList then splitCommasDepth (t :: acc) (depth + 1) r
    else if t.text = ")".toList then splitCommasDepth (t :: acc) (depth - 1) r
    else if t.text = ",".toList && depth = 0 then
      if acc.isEmpty then splitCommasDepth [] 0 r
      else acc.reverse :: splitCommasDepth [] 0 r
    else splitCommasDepth (t :: acc) depth r

/-- `_split_by_top_level_commas`: build groups, then filter those with no
non-whitespace content. -/
def splitTopLevelCommas (ts : List Token) : List (List Token) :=
  (splitCommasDepth [] 0 ts).filter groupHasContent

/-! ## `_tokens_to_string` -/

/-- The per-token rendering of `_tokens_to_string` (commas always become
`", "` there). -/
def tokenToStringPiece (m : Mode) (t : Token) : List Char :=
  match t.kind with
  | .cellRef => fmtCellReference m t.text
  | .str => fmtStringLiteral m t.text
  | .number => fmtNumber m t.text
  | .operator => fmtOperator m t.text
  | .function => fmtFunctionCall m t.text
  | .punct => if t.text = ",".toList then ", ".toList else fmtPunctuation m t.text
  | .identifier => t.text

/-- `_tokens_to_string` (ends with `.strip()`). -/
def tokensToString (m : Mode) (ts : List Token) : List Char :=
  pyStrip ((ts.map (tokenToStringPiece m)).flatten)

/-! ## `_extract_function_arguments`

Called with the token list that follows the opening parenthesis; returns the
enclosed tokens (closing parenthesis excluded) and the tokens after it. -/

def extractArgsAux (depth : Nat) : List Token → List Token × List Token
  | [] => ([], [])
  | t :: r =>
    let d := if t.text = "(".toList then depth + 1
             else if t.text = ")".toList then depth - 1 else depth
    if d = 0 then ([], r)
    else
      let pr := extractArgsAux d r
      (t :: pr.1, pr.2)

/-- `_extract_function_arguments` from just after the `(`. -/
def extractFunctionArguments (ts : List Token) : List Token × List Token :=
  extractArgsAux 1 ts

/-! ## The layout engine (fold direction)

`_process_token_sequence` and the per-function policies, fuel-indexed (every
mutual call costs one unit; the top level supplies ample fuel). -/

/-- Flush of the accumulated `current_line` buffer. -/
def flushCur (_ : Mode) (d : Nat) (cur : List Char) : List (List Char) :=
  if (pyStrip cur).isEmpty then [] else [indentOf d ++ pyStrip cur]

/-- The call states of the layout engine: `_process_token_sequence` (with its
`current_line` accumulator), the per-function policies and their loops.  A
single fuel-structural interpreter keeps every equation a definitional
reduction. -/
inductive EngineCall where
  | seqAux (m : Mode) (d : Nat) (cur : List Char) (ts : List Token)
  | seq (m : Mode) (d : Nat) (ts : List Token)
  | ifsArgs (m : Mode) (d idx : Nat) (gs : List (List Token))
  | ifsFn (m : Mode) (name : List Char) (argToks : List Token) (d : Nat)
  | letFn (m : Mode) (name : List Char) (argToks : List Token) (d : Nat)
  | genArgs (m : Mode) (d : Nat) (gs : List (List Token))
  | genFn (m : Mode) (name : List Char) (argToks : List Token) (d : Nat)

/-- The function-comment lines shared by the IFS/SWITCH and LET policies. -/
def functionCommentLines (m : Mode) (name : List Char) (d : Nat) : List (List Char) :=
  let comment := getFunctionComment name
  if comment.isEmpty then []
  else
    let cl := sectionComment m comment
    if cl.isEmpty then [] else [indentOf d ++ cl]

/-- The `// ── CASE/RESULT PAIR ──` separator text. -/
def caseResultSep : List Char := "── CASE/RESULT PAIR ──".toList

/-- The pair/body loop of `_process_let_function`.  The Python index loop
walks an even index, so the pair branch fires exactly while two argument
groups remain; the final unpaired group is processed by
`_process_token_sequence` (passed in as `seqFn`) one level deeper. -/
def letArgsLoop (m : Mode) (d : Nat) (seqFn : List Token → List (List Char)) :
    List (List Token) → List (List Char)
  | [] => []
  | [g] => seqFn g
  | g1 :: g2 :: rest =>
    let varName := pyStrip (tokensToString m g1)
    let valueStr := pyStrip (tokensToString m g2)
    let combined := indentOf (d + 1) ++ varName ++
      fmtPunctuation m ",".toList ++ [' '] ++ valueStr
    let combined :=
      if rest.isEmpty then combined
      else combined ++ fmtPunctuation m ",".toList
    combined :: letArgsLoop m d seqFn rest

/-- One step of the layout engine; each Python-level call or loop iteration
costs one unit of fuel. -/
def engine : Nat → EngineCall → List (List Char)
  | 0, _ => []
  | fuel + 1, call =>
    match call with
    | .seqAux m d cur ts =>
      match ts with
      | [] => flushCur m d cur
      | t :: rest =>
        if t.kind = .function then
          match rest with
          | t2 :: r2 =>
            if t2.text = "(".toList then
              let pr := extractFunctionArguments r2
              let funcLines :=
                if toUpperList t.text = "IFS".toList ||
                   toUpperList t.text = "SWITCH".toList then
                  engine fuel (.ifsFn m t.text pr.1 d)
                else if toUpperList t.text = "LET".toList then
                  engine fuel (.letFn m t.text pr.1 d)
                else
                  engine fuel (.genFn m t.text pr.1 d)
              flushCur m d cur ++ funcLines ++ engine fuel (.seqAux m d [] pr.2)
            else
              engine fuel (.seqAux m d (cur ++ fmtFunctionCall m t.text) rest)
          | [] => engine fuel (.seqAux m d (cur ++ fmtFunctionCall m t.text) rest)
        else if t.kind = .cellRef then
          engine fuel (.seqAux m d (cur ++ fmtCellReference m t.text) rest)
        else if t.kind = .str then
          engine fuel (.seqAux m d (cur ++ fmtStringLiteral m t.text) rest)
        else if t.kind = .number then
          engine fuel (.seqAux m d (cur ++ fmtNumber m t.text) rest)
        else if t.kind = .operator then
          engine fuel (.seqAux m d (cur ++ fmtOperator m t.text) rest)
        else if t.kind = .punct && t.text = ",".toList then
          engine fuel (.seqAux m d (cur ++ fmtPunctuation m t.text ++ [' ']) rest)
        else if t.kind = .punct then
          engine fuel (.seqAux m d (cur ++ fmtPunctuation m t.text) rest)
        else
          engine fuel (.seqAux m d (cur ++ t.text) rest)
    | .seq m d ts => engine fuel (.seqAux m d [] ts)
    | .ifsArgs m d idx gs =>
      match gs with
      | [] => []
      | g :: rest =>
        let sepLines :=
          if idx > 1 && idx % 2 = 0 then
            let sep := sectionComment m caseResultSep
            if sep.isEmpty then [] else [[], indentOf (d + 1) ++ sep]
          else []
        let argLines := engine fuel (.seq m (d + 1) g)
        let argLines :=
          if rest.isEmpty then argLines
          else
            match argLines.reverse with
            | [] => [indentOf (d + 1) ++ fmtPunctuation m ",".toList]
            | last :: front =>
              ((last ++ fmtPunctuation m ",".toList) :: front).reverse
        sepLines ++ argLines ++ engine fuel (.ifsArgs m d (idx + 1) rest)
    | .ifsFn m name argToks d =>
      let header :=
        [indentOf d ++ fmtFunctionCall m name ++ fmtPunctuation m "(".toList]
      let gs := splitTopLevelCommas argToks
      let initSep :=
        if gs.isEmpty then []
        else
          let sep := sectionComment m caseResultSep
          if sep.isEmpty then [] else [indentOf (d + 1) ++ sep]
      functionCommentLines m name d ++ header ++ initSep ++
        engine fuel (.ifsArgs m d 0 gs) ++
        [indentOf d ++ fmtPunctuation m ")".toList]
    | .letFn m name argToks d =>
      let header :=
        [indentOf d ++ fmtFunctionCall m name ++ fmtPunctuation m "(".toList]
      let gs := splitTopLevelCommas argToks
      functionCommentLines m name d ++ header ++
        letArgsLoop m d (fun g => engine fuel (.seq m (d + 1) g)) gs ++
        [indentOf d ++ fmtPunctuation m ")".toList]
    | .genArgs m d gs =>
      match gs with
      | [] => []
      | g :: rest =>
        let argLines := engine fuel (.seq m (d + 1) g)
        let argLines :=
          if rest.isEmpty then argLines
          else
            match argLines.reverse with
            | [] => []
            | last :: front =>
              ((last ++ fmtPunctuation m ",".toList) :: front).reverse
        argLines ++ engine fuel (.genArgs m d rest)
    | .genFn m name argToks d =>
      let gs := (splitTopLevelCommas argToks).filter (fun g => !g.isEmpty)
      if gs.isEmpty then
        [indentOf d ++ fmtFunctionCall m name ++ fmtPunctuation m "(".toList ++
          fmtPunctuation m ")".toList]
      else
        match gs with
        | [g] =>
          let argStr := pyStrip (tokensToString m g)
          let hasNested := g.any (fun t => t.kind = .function)
          let totalLength := name.length + argStr.length + 2
          if !hasNested && totalLength ≤ 40 then
            [indentOf d ++ fmtFunctionCall m name ++
              fmtPunctuation m "(".toList ++ argStr ++
              fmtPunctuation m ")".toList]
          else
            [indentOf d ++ fmtFunctionCall m name ++
              fmtPunctuation m "(".toList] ++
              engine fuel (.genArgs m d gs) ++
              [indentOf d ++ fmtPunctuation m ")".toList]
        | _ =>
          [indentOf d ++ fmtFunctionCall m name ++
            fmtPunctuation m "(".toList] ++
            engine fuel (.genArgs m d gs) ++
            [indentOf d ++ fmtPunctuation m ")".toList]

/-- `_process_token_sequence`. -/
def processSeq (fuel : Nat) (m : Mode) (d : Nat) (ts : List Token) :
    List (List Char) :=
  engine fuel (.seq m d ts)

/-- `_process_let_function`. -/
def processLet (fuel : Nat) (m : Mode) (name : List Char)
    (argToks : List Token) (d : Nat) : List (List Char) :=
  engine fuel (.letFn m name argToks d)

/-- `_process_ifs_function`. -/
def processIfs (fuel : Nat) (m : Mode) (name : List Char)
    (argToks : List Token) (d : Nat) : List (List Char) :=
  engine fuel (.ifsFn m name argToks d)

/-- `_process_generic_function`. -/
def processGeneric (fuel : Nat) (m : Mode) (name : List Char)
    (argToks : List Token) (d : Nat) : List (List Char) :=
  engine fuel (.genFn m name argToks d)

/-! ## `fold_formula` -/

/-- Fuel supplied by the top level: generous bound on the mutual call depth of
the layout engine (each call strictly shrinks the token list, and every level
costs a bounded number of mutual steps). -/
def foldFuel (ts : List Token) : Nat := (ts.length + 4) * (ts.length + 4)

/-- `_format_tokens_with_translator`. -/
def formatTokensWithTranslator (m : Mode) (ts : List Token) : List (List Char) :=
  let header := headerComment m
  (if header.isEmpty then [] else [header]) ++ processSeq (foldFuel ts) m 0 ts

/-- Insert an element at an index (Python `list.insert`). -/
def insertAt (lines : List (List Char)) (idx : Nat) (l : List Char) :
    List (List Char) :=
  lines.take idx ++ l :: lines.drop idx

/-- `fold_formula`. -/
def foldFormula (m : Mode) (formula : List Char) : List Char :=
  if (pyStrip formula).isEmpty then []
  else
    let clean := pyStrip formula
    let isArray := "\x7b=".toList.isPrefixOf clean && clean.getLast? = some '\x7d'
    let body :=
      if isArray then (clean.drop 2).dropLast
      else if clean.take 1 = ['='] then clean.drop 1
      else clean
    let tokens := parseExcelTokens body
    let lines := formatTokensWithTranslator m tokens
    let lines :=
      if isArray then
        let idx :=
          match lines with
          | l :: _ => if "//".toList.isPrefixOf l then 1 else 0
          | [] => 0
        insertAt lines idx "\x7b=".toList ++ ["\x7d".toList]
      else lines
    let lines :=
      match m with
      | .p => lines.filter (fun l => !(pyStrip l).isEmpty)
      | _ => lines
    joinNl lines

/-! ## Comment removal (`_safe_remove_comments`) -/

/-- Is the last non-whitespace character of the (reversed) prefix a comma
(the look-back test of the comment scan)? -/
def commaJustBefore (preRev : List Char) : Bool :=
  match (preRev.dropWhile pyIsSpace).head? with
  | some c => c = ','
  | none => false

/-- The marker scan of `_safe_remove_comments` and
`AnnotatedExcelTranslator.reverse_parse_line`: position of the first `//`
whose preceding non-whitespace character is not a comma.  `preRev` is the
reversed prefix already passed. -/
def findCommentPos (preRev : List Char) : List Char → Option Nat
  | [] => none
  | c :: r =>
    if c = '/' && r.head? = some '/' && !commaJustBefore preRev then some 0
    else (findCommentPos (c :: preRev) r).map (· + 1)

/-- Cut a line at the found marker (`line[:comment_pos].rstrip()`), keeping it
unchanged when no safe marker exists. -/
def cleanInlineComment (line : List Char) : List Char :=
  match findCommentPos [] line with
  | some p => pyRStrip (line.take p)
  | none => line

/-- The full-line comment test `^\s*(?://|#)`. -/
def isFullComment (line : List Char) : Bool :=
  "//".toList.isPrefixOf (pyLStrip line) || (pyLStrip line).take 1 = ['#']

/-- `_safe_remove_comments`. -/
def safeRemoveComments (text : List Char) : List Char :=
  joinNl (((splitNl text).filter (fun l => !isFullComment l)).filterMap
    (fun l =>
      let cl := cleanInlineComment l
      if (pyStrip cl).isEmpty then none else some cl))

/-! ## The regex substitutions of the reverse engine

Each substitution below is the deterministic scan denoted by the pattern on
which `re.sub` is called (leftmost, non-overlapping, greedy). -/

/-- Emit a buffered whitespace run (`pending` reversed): a run containing a
newline became a single space. -/
def flushWsRun (pending : List Char) (sawNl : Bool) : List Char :=
  if pending.isEmpty then [] else if sawNl then [' '] else pending.reverse

/-- `whitespace_newline_rgx.sub(' ', s)` with pattern `\s*\r?\n\s*`: every
maximal whitespace run containing a newline collapses to one space (runs
without a newline are untouched). -/
def wsNlAux (pending : List Char) (sawNl : Bool) : List Char → List Char
  | [] => flushWsRun pending sawNl
  | c :: r =>
    if pyIsSpace c then wsNlAux (c :: pending) (sawNl || c = '\n') r
    else flushWsRun pending sawNl ++ c :: wsNlAux [] false r

/-- The newline-collapsing substitution. -/
def wsNlSub (s : List Char) : List Char := wsNlAux [] false s

/-- `re.sub(r'\(\s+', '(', s)`: drop whitespace directly after an opening
parenthesis. -/
def parenOpenSub (afterParen : Bool) : List Char → List Char
  | [] => []
  | c :: r =>
    if afterParen && pyIsSpace c then parenOpenSub true r
    else c :: parenOpenSub (c = '(') r

/-- `re.sub(r'\s+\)', ')', s)`: drop a whitespace run directly before a
closing parenthesis (`pending` buffers the run, reversed). -/
def parenCloseSub (pending : List Char) : List Char → List Char
  | [] => pending.reverse
  | c :: r =>
    if pyIsSpace c then parenCloseSub (c :: pending) r
    else if c = ')' then ')' :: parenCloseSub [] r
    else pending.reverse ++ c :: parenCloseSub [] r

/-- `re.sub(r'\s+', ' ', s)`: collapse every whitespace run to one space. -/
def collapseWs (prevWs : Bool) : List Char → List Char
  | [] => []
  | c :: r =>
    if pyIsSpace c then
      if prevWs then collapseWs true r else ' ' :: collapseWs true r
    else c :: collapseWs false r

/-- `re.sub(r'\s*,\s*', ', ', s)`: each comma, with the whitespace around it,
becomes `", "`.  `pending` buffers whitespace not yet attributed (reversed);
`afterComma` skips the whitespace consumed by the trailing `\s*`. -/
def commaSub (pending : List Char) (afterComma : Bool) : List Char → List Char
  | [] => pending.reverse
  | c :: r =>
    if pyIsSpace c then
      if afterComma then commaSub [] true r
      else commaSub (c :: pending) afterComma r
    else if c = ',' then ',' :: ' ' :: commaSub [] true r
    else pending.reverse ++ c :: commaSub [] false r

/-- The characters of the JavaScript clean-up class `[+\-*/=<>!]`. -/
def isJsOpChar (c : Char) : Bool :=
  c = '+' || c = '-' || c = '*' || c = '/' || c = '=' || c = '<' || c = '>' || c = '!'

/-- `re.sub(r'\s*([+\-*/=<>!])\s*', r'\1', s)`: strip whitespace around the
single-character operators (JavaScript mode only). -/
def opSpaceSub (pending : List Char) (afterOp : Bool) : List Char → List Char
  | [] => pending.reverse
  | c :: r =>
    if pyIsSpace c then
      if afterOp then opSpaceSub [] true r
      else opSpaceSub (c :: pending) afterOp r
    else if isJsOpChar c then c :: opSpaceSub [] true r
    else pending.reverse ++ c :: opSpaceSub [] false r

/-- Two-character alternatives of `\s*(<>|>=|<=|!=)\s*`. -/
def isTwoCharAlt (c1 c2 : Char) : Bool :=
  (c1 = '<' && c2 = '>') || (c1 = '>' && c2 = '=') ||
  (c1 = '<' && c2 = '=') || (c1 = '!' && c2 = '=')

/-- `re.sub(r'\s*(<>|>=|<=|!=)\s*', r'\1', s)` (JavaScript mode only). -/
def twoOpSpaceSub (pending : List Char) (afterOp : Bool) : List Char → List Char
  | [] => pending.reverse
  | [c] =>
    if pyIsSpace c then (if afterOp then [] else (c :: pending).reverse)
    else pending.reverse ++ [c]
  | c :: c2 :: r =>
    if pyIsSpace c then
      if afterOp then twoOpSpaceSub [] true (c2 :: r)
      else twoOpSpaceSub (c :: pending) afterOp (c2 :: r)
    else if isTwoCharAlt c c2 then c :: c2 :: twoOpSpaceSub [] true r
    else pending.reverse ++ c :: twoOpSpaceSub [] false (c2 :: r)

/-- `js_not_equal_rgx.sub('<>', s)`: replace every `!=` by `<>`. -/
def bangEqSub : List Char → List Char
  | [] => []
  | '!' :: '=' :: r => '<' :: '>' :: bangEqSub r
  | c :: r => c :: bangEqSub r

/-! ## Translator reverse transforms -/

/-- `JavaScriptTranslator.reverse_parse_cell_reference`:
`re.sub(r'"[^"]*"', unquote_cell_ref, text)` where the replacement drops the
quotes exactly when the inner text starts with a `cell_ref_all_rgx` match.
`buf` holds the reversed inner text of a quoted region in progress. -/
def revCellRefAux (buf : Option (List Char)) : List Char → List Char
  | [] =>
    match buf with
    | none => []
    | some acc => '"' :: acc.reverse
  | c :: r =>
    match buf with
    | none => if c = '"' then revCellRefAux (some []) r else c :: revCellRefAux none r
    | some acc =>
      if c = '"' then
        let inner := acc.reverse
        (if startsCellRef inner then inner else '"' :: inner ++ ['"']) ++
          revCellRefAux none r
      else revCellRefAux (some (c :: acc)) r

/-- The JavaScript reverse cell-reference transform. -/
def revCellRefJs (s : List Char) : List Char := revCellRefAux none s

/-- `line.find('//')` of the JavaScript `reverse_parse_line`. -/
def jsFindMarker : List Char → Option Nat
  | [] => none
  | c :: r =>
    if c = '/' && r.head? = some '/' then some 0
    else (jsFindMarker r).map (· + 1)

/-- `reverse_parse_line` of the three translators (applied once to the whole
flattened text by `_reverse_parse_with_translator`). -/
def reverseParseLine (m : Mode) (line : List Char) : List Char :=
  match m with
  | .j =>
    (match jsFindMarker line with
     | some p => pyStrip (line.take p)
     | none => pyStrip line)
  | .a =>
    (match findCommentPos [] line with
     | some p => pyRStrip (line.take p)
     | none => pyStrip line)
  | .p => pyStrip line

/-- `_reverse_parse_with_translator`. -/
def reverseParseWithTranslator (m : Mode) (text : List Char) : List Char :=
  let r1 := match m with | .j => revCellRefJs text | _ => text
  let r2 := match m with | .j => bangEqSub r1 | _ => r1
  let r3 := reverseParseLine m r2
  let r4 := parenOpenSub false r3
  let r5 := parenCloseSub [] r4
  let r6 := collapseWs false r5
  let r7 := commaSub [] false r6
  let r8 := match m with
            | .j => twoOpSpaceSub [] false (opSpaceSub [] false r7)
            | _ => r7
  pyStrip r8

/-! ## `unfold_formula` -/

/-- Remove the `\x7b=` marker line (first occurrence) and, if one was found,
the last `\x7d` line; returns the array flag and the remaining lines. -/
def removeArrayMarkers (lines : List (List Char)) : Bool × List (List Char) :=
  match lines.findIdx? (fun l => pyStrip l = "\x7b=".toList) with
  | none => (false, lines)
  | some i =>
    let ls := lines.eraseIdx i
    match ls.reverse.findIdx? (fun l => pyStrip l = "\x7d".toList) with
    | none => (true, ls)
    | some j => (true, (ls.reverse.eraseIdx j).reverse)

/-- `unfold_formula`. -/
def unfoldFormula (m : Mode) (text : List Char) : List Char :=
  if (pyStrip text).isEmpty then []
  else
    let lines := splitNl (pyStrip text)
    let pr := removeArrayMarkers lines
    let noComments := safeRemoveComments (joinNl pr.2)
    let singleLine := pyStrip (wsNlSub noComments)
    if singleLine.isEmpty then []
    else
      let excel := reverseParseWithTranslator m singleLine
      if pr.1 then
        if "\x7b=".toList.isPrefixOf excel then excel
        else "\x7b=".toList ++ excel ++ "\x7d".toList
      else
        if "=".toList.isPrefixOf excel then excel else '=' :: excel

/-! ## `detect_current_mode` -/

/-- `detect_current_mode`.  Result is one of `"j"`, `"a"`, `"p"`,
`"unknown"`. -/
def detectCurrentMode (text : List Char) : List Char :=
  if (pyStrip text).isEmpty then "unknown".toList
  else
    let lines := splitNl (pyStrip text)
    if lines.length = 1 then "p".toList
    else
      let tc := joinNl lines
      if containsSub tc "//".toList && containsSub tc "JavaScript syntax".toList then
        "j".toList
      else if containsSub tc "//".toList &&
          containsSub tc "annotated Excel syntax".toList then
        "a".toList
      else if containsSub tc "//".toList &&
          (containsSub tc "plain Excel syntax".toList ||
           containsSub tc "Excel Formula".toList) then
        "a".toList
      else if lines.any
          (fun l => "    ".toList.isPrefixOf l || l.take 1 = ['\t']) then
        if containsSub tc "\"".toList &&
            (containsSub tc "SUM".toList || containsSub tc "IF".toList ||
             containsSub tc "VLOOKUP".toList) then
          "j".toList
        else "a".toList
      else "p".toList

/-! ## `create_formatter_by_mode` and `safe_mode_switch` -/

/-- `create_formatter_by_mode`: the registered single-letter codes after
`mode.lower().strip()`; `none` models the raised `ValueError`. -/
def createFormatterByMode (mode : List Char) : Option Mode :=
  let mode := pyStrip (toLowerList mode)
  if mode = "j".toList then some .j
  else if mode = "a".toList then some .a
  else if mode = "p".toList then some .p
  else none

/-- `safe_mode_switch` (with its default `should_refold=True`): the
`try/except` absorbs the `ValueError` of an unregistered mode and returns the
original text. -/
def safeModeSwitch (text currentMode targetMode : List Char) : List Char :=
  if (pyStrip text).isEmpty then []
  else if currentMode = targetMode then text
  else
    match createFormatterByMode currentMode with
    | none => text
    | some m1 =>
      match createFormatterByMode targetMode with
      | none => text
      | some m2 => foldFormula m2 (unfoldFormula m1 text)

/-! ## Normalisation and counting used by the round-trip claims -/

/-- Strip the leading `=` (or the `\x7b=` / `\x7d` array wrapper) of a
formula. -/
def stripWrapper (s : List Char) : List Char :=
  if "\x7b=".toList.isPrefixOf s && s.getLast? = some '\x7d' then
    (s.drop 2).dropLast
  else if s.take 1 = ['='] then s.drop 1
  else s

/-- The round-trip normalisation: strip the wrapper, then collapse (remove)
all whitespace. -/
def normalizeFormula (s : List Char) : List Char :=
  (stripWrapper (pyStrip s)).filter (fun c => !pyIsSpace c)

/-- Number of comma characters of a text (every comma of the claims'
formulas is an argument separator). -/
def countCommas (s : List Char) : Nat := s.count ','

/-- Round trip in a given mode. -/
def roundTrip (m : Mode) (s : List Char) : List Char :=
  unfoldFormula m (foldFormula m s)

/-- Whitespace-insensitive round-trip success in a given mode. -/
def roundTripOk (m : Mode) (s : List Char) : Bool :=
  normalizeFormula (roundTrip m s) = normalizeFormula s

/-! ## Specification-side definitions

The following definitions restate parts of the natural-language specification
in a form independent of the code's control flow; the claims below compare
them with the embedded code. -/

/-- Specification-side splitting at top-level commas that keeps every group,
including empty ones (`acc` is the current group, reversed). -/
def rawSplitAux (acc : List Token) (depth : Int) : List Token → List (List Token)
  | [] => [acc.reverse]
  | t :: r =>
    if t.text = "(".toList then rawSplitAux (t :: acc) (depth + 1) r
    else if t.text = ")".toList then rawSplitAux (t :: acc) (depth - 1) r
    else if t.text = ",".toList && depth = 0 then
      acc.reverse :: rawSplitAux [] 0 r
    else rawSplitAux (t :: acc) depth r

/-- All comma-delimited groups of a parameter list, empty ones included. -/
def rawTopLevelGroups (ts : List Token) : List (List Token) :=
  rawSplitAux [] 0 ts

/-- The body of a formula with whitespace removed everywhere except inside
string literals (`inStr` tracks the open-quote state).  This is the exact
residue the tokenizer keeps: the spec's ``body with whitespace stripped``
once string interiors are exempted. -/
def stripOutside (inStr : Bool) : List Char → List Char
  | [] => []
  | c :: r =>
    if inStr then
      (if c = '"' then c :: stripOutside false r else c :: stripOutside true r)
    else if c = '"' then c :: stripOutside true r
    else if pyIsSpace c then stripOutside false r
    else c :: stripOutside false r

/-- Concatenation of the `text` fields of a token sequence. -/
def joinTexts (ts : List Token) : List Char :=
  (ts.map Token.text).flatten

/-- Specification-side pairing of LET argument groups: groups are consumed in
pairs; a final unpaired group is the body expression. -/
def chunkPairs : List (List Token) → List (List Token × List Token) × Option (List Token)
  | [] => ([], none)
  | [g] => ([], some g)
  | g1 :: g2 :: rest =>
    let pr := chunkPairs rest
    ((g1, g2) :: pr.1, pr.2)

/-- Specification-side rendering of one LET name/value pair on one combined
line; `followed` states whether a further pair or the body follows, which is
exactly when a trailing comma is added. -/
def letPairLineSpec (m : Mode) (d : Nat) (pr : List Token × List Token)
    (followed : Bool) : List Char :=
  indentOf (d + 1) ++ pyStrip (tokensToString m pr.1) ++ ", ".toList ++
    pyStrip (tokensToString m pr.2) ++ (if followed then [','] else [])

/-- Specification-side rendering of the pair list (`bodyPresent` tells
whether an unpaired body group follows the pairs). -/
def renderPairsSpec (m : Mode) (d : Nat) (bodyPresent : Bool) :
    List (List Token × List Token) → List (List Char)
  | [] => []
  | [pr] => [letPairLineSpec m d pr bodyPresent]
  | pr :: rest => letPairLineSpec m d pr true :: renderPairsSpec m d bodyPresent rest

/-- Specification-side LET layout: name/value pairs one per combined line,
then the body laid out by the token-sequence processor (`seqFn`) one level
deeper. -/
def letLayoutSpec (m : Mode) (d : Nat) (seqFn : List Token → List (List Char))
    (gs : List (List Token)) : List (List Char) :=
  let ch := chunkPairs gs
  renderPairsSpec m d ch.2.isSome ch.1 ++
    (match ch.2 with
     | some b => seqFn b
     | none => [])

/-- A `//` marker starts at position `i` of the line. -/
def isMarkerAt (line : List Char) (i : Nat) : Bool :=
  ['/', '/'].isPrefixOf (line.drop i)

/-- The nearest non-whitespace character before position `i` is a comma. -/
def commaPrecedes (line : List Char) (i : Nat) : Bool :=
  commaJustBefore (line.take i).reverse

/-- Specification-side comment rule: the first `//` marker whose nearest
preceding non-whitespace character is not a comma. -/
def firstSafeMarkerSpec (line : List Char) : Option Nat :=
  (List.range line.length).find?
    (fun i => isMarkerAt line i && !commaPrecedes line i)

/-- Specification-side line cleaning: cut at the first safe marker (trailing
whitespace trimmed), keep the line untouched when every marker is
comma-protected. -/
def cleanLineSpec (line : List Char) : List Char :=
  match firstSafeMarkerSpec line with
  | some p => pyRStrip (line.take p)
  | none => line

/-- Specification-side comment removal: drop whole-comment lines, clean the
rest comma-safely, drop lines left blank. -/
def safeRemoveCommentsSpec (text : List Char) : List Char :=
  joinNl (((splitNl text).filter (fun l => !isFullComment l)).filterMap
    (fun l =>
      let cl := cleanLineSpec l
      if (pyStrip cl).isEmpty then none else some cl))

end ExcelFmt

namespace ExcelFmt

/-! # Claims

Each claim of the specification is settled by one theorem below (with a
witness where the theorem carries hypotheses, and a counterexample where the
claim as stated fails on the code). -/

set_option maxRecDepth 40000

/-- C1 (counterexample): the universal round-trip claim fails.  The
well-formed formula `="A1"` in JavaScript mode does not round-trip even up to
whitespace: the reverse cell-reference transform strips the quotes of the
string literal `"A1"`, so unfolding yields `=A1`. -/
theorem C1_roundtrip_counterexample :
    normalizeFormula (roundTrip Mode.j ("=\"A1\"".toList)) ≠
      normalizeFormula ("=\"A1\"".toList) := by decide

/-- C1 (amended): the whitespace-insensitive round-trip
`unfold(M, fold(M, F))` ≍ `F` holds in all three registered modes for the
specification's example formulas (SUM with a range, IF with `<>` and string
literals, LET, IFS, an array formula, and the AND/NOT regression target) —
but not for every well-formed formula, as the counterexample shows. -/
theorem C1_roundtrip_examples :
    (roundTripOk Mode.j ("=SUM(A1:A10)".toList) ∧
     roundTripOk Mode.a ("=SUM(A1:A10)".toList) ∧
     roundTripOk Mode.p ("=SUM(A1:A10)".toList)) ∧
    (roundTripOk Mode.j ("=IF(A1<>B1,\"Different\",\"Same\")".toList) ∧
     roundTripOk Mode.a ("=IF(A1<>B1,\"Different\",\"Same\")".toList) ∧
     roundTripOk Mode.p ("=IF(A1<>B1,\"Different\",\"Same\")".toList)) ∧
    (roundTripOk Mode.j ("=LET(x,A1,y,B1,x+y)".toList) ∧
     roundTripOk Mode.a ("=LET(x,A1,y,B1,x+y)".toList) ∧
     roundTripOk Mode.p ("=LET(x,A1,y,B1,x+y)".toList)) ∧
    (roundTripOk Mode.j ("=IFS(A1>0,\"Positive\",A1<0,\"Negative\",TRUE,\"Zero\")".toList) ∧
     roundTripOk Mode.a ("=IFS(A1>0,\"Positive\",A1<0,\"Negative\",TRUE,\"Zero\")".toList) ∧
     roundTripOk Mode.p ("=IFS(A1>0,\"Positive\",A1<0,\"Negative\",TRUE,\"Zero\")".toList)) ∧
    (roundTripOk Mode.j ("\x7b=SUM(A1:A10)\x7d".toList) ∧
     roundTripOk Mode.a ("\x7b=SUM(A1:A10)\x7d".toList) ∧
     roundTripOk Mode.p ("\x7b=SUM(A1:A10)\x7d".toList)) ∧
    (roundTripOk Mode.j ("=AND(NOT(a),NOT(b),NOT(c),d,e)".toList) ∧
     roundTripOk Mode.a ("=AND(NOT(a),NOT(b),NOT(c),d,e)".toList) ∧
     roundTripOk Mode.p ("=AND(NOT(a),NOT(b),NOT(c),d,e)".toList)) := by
  refine ⟨⟨?_, ?_, ?_⟩, ⟨?_, ?_, ?_⟩, ⟨?_, ?_, ?_⟩, ⟨?_, ?_, ?_⟩,
    ⟨?_, ?_, ?_⟩, ⟨?_, ?_, ?_⟩⟩ <;> decide

/-- C2 (counterexample): comma conservation fails in general, in two
independent ways.  The formula `=IF(A1,,B1)` has two top-level separators,
but the empty argument group is discarded by `_split_by_top_level_commas`,
so the unfolded result of the folded form has only one.  And the formula
`=IF("a//b",1,2)` has no empty argument group at all — splitting its
argument tokens at top-level commas yields exactly the three raw groups —
yet it also loses a comma, because `_safe_remove_comments` cuts the folded
line at the `//` inside the string literal. -/
theorem C2_commas_counterexample :
    (countCommas ("=IF(A1,,B1)".toList) = 2 ∧
     countCommas (roundTrip Mode.p ("=IF(A1,,B1)".toList)) = 1) ∧
    (splitTopLevelCommas (parseExcelTokens "\"a//b\",1,2".toList) =
       rawTopLevelGroups (parseExcelTokens "\"a//b\",1,2".toList) ∧
     (rawTopLevelGroups (parseExcelTokens "\"a//b\",1,2".toList)).length = 3 ∧
     countCommas ("=IF(\"a//b\",1,2)".toList) = 2 ∧
     countCommas (roundTrip Mode.p ("=IF(\"a//b\",1,2)".toList)) = 1) :=
  ⟨⟨by decide, by decide⟩, by decide, by decide, by decide, by decide⟩

/-- C2 (amended): the universal conservation claim is false (even restricted
to formulas without empty argument groups); what holds is the claim's named
regression target: `AND(NOT(a),NOT(b),NOT(c),d,e)` round-trips with exactly
4 commas preserved in every registered mode. -/
theorem C2_regression_commas :
    countCommas ("=AND(NOT(a),NOT(b),NOT(c),d,e)".toList) = 4 ∧
    countCommas (roundTrip Mode.j ("=AND(NOT(a),NOT(b),NOT(c),d,e)".toList)) = 4 ∧
    countCommas (roundTrip Mode.a ("=AND(NOT(a),NOT(b),NOT(c),d,e)".toList)) = 4 ∧
    countCommas (roundTrip Mode.p ("=AND(NOT(a),NOT(b),NOT(c),d,e)".toList)) = 4 :=
  ⟨by decide, by decide, by decide, by decide⟩

/-- C3 (counterexample): `safe_mode_switch` does not fail with an
`InvalidMode` error on an unregistered identifier — the `try/except` absorbs
the error and the original text is returned; and for equal identifiers the
input is not always returned unchanged: whitespace-only input yields the
empty string. -/
theorem C3_switch_counterexample :
    safeModeSwitch ("=A1".toList) ("x".toList) ("j".toList) = "=A1".toList ∧
    createFormatterByMode ("x".toList) = none ∧
    safeModeSwitch [' '] ("j".toList) ("j".toList) = [] ∧
    ([' '] : List Char) ≠ [] :=
  ⟨by decide, by decide, by decide, by decide⟩

/-- C3 (amended): for equal mode identifiers the input with non-whitespace
content is returned unchanged (before any validity check); when the
identifiers differ and either one is unregistered, the operation never
fails — it returns the input unchanged (or the empty string for blank
input). -/
theorem C3_switch_behavior :
    (∀ text mode, (pyStrip text).isEmpty = false →
        safeModeSwitch text mode mode = text) ∧
    (∀ text m1 m2, m1 ≠ m2 →
        createFormatterByMode m1 = none ∨ createFormatterByMode m2 = none →
        safeModeSwitch text m1 m2 =
          if (pyStrip text).isEmpty then [] else text) := by
  constructor
  · intro text mode h
    unfold safeModeSwitch
    simp [h]
  · intro text m1 m2 hne hinv
    unfold safeModeSwitch
    by_cases hb : (pyStrip text).isEmpty
    · simp [hb]
    · simp only [Bool.not_eq_true] at hb
      rcases hinv with h | h
      · simp [hb, hne, h]
      · cases hcf : createFormatterByMode m1 <;> simp [hb, hne, h, hcf]

/-- C3 witness: the amended behaviour at concrete inputs. -/
theorem C3_switch_behavior_witness :
    safeModeSwitch ("=A1".toList) ("q".toList) ("q".toList) = "=A1".toList ∧
    safeModeSwitch ("=A1".toList) ("q".toList) ("j".toList) = "=A1".toList := by
  constructor
  · exact C3_switch_behavior.1 _ _ (by decide)
  · have h := C3_switch_behavior.2 ("=A1".toList) ("q".toList) ("j".toList)
      (by decide) (Or.inl (by decide))
    rw [h]; decide

/-- C7 (counterexample): a multi-line input with no mode markers and no
indentation is classified `p`, not the distinguished `unknown` result the
claim demands; `unknown` is returned only for blank input. -/
theorem C7_detect_counterexample :
    detectCurrentMode ("abc\ndef".toList) = "p".toList ∧
    ("p".toList : List Char) ≠ "unknown".toList :=
  ⟨by decide, by decide⟩

/-- C7 (amended): `detect_current_mode` is total and returns one of the three
registered modes or `unknown`; it returns `unknown` exactly for blank input;
a single-line input is classified `p` (already unfolded).  A multi-line
input is examined in order: a `//` comment together with the JavaScript
header marker gives `j`; otherwise `//` with the annotated marker, or `//`
with the plain marker or the legacy `Excel Formula` header, gives `a`;
otherwise a line indented four spaces or starting with a tab gives `j` when
the text has a double quote and one of SUM/IF/VLOOKUP and `a` when it does
not; only a multi-line input with none of these indicators defaults to
`p`. -/
theorem C7_detect_mode :
    (∀ t, detectCurrentMode t = "unknown".toList ↔ (pyStrip t).isEmpty = true) ∧
    (∀ t, detectCurrentMode t = "j".toList ∨ detectCurrentMode t = "a".toList ∨
        detectCurrentMode t = "p".toList ∨
        detectCurrentMode t = "unknown".toList) ∧
    (∀ t, (pyStrip t).isEmpty = false → (splitNl (pyStrip t)).length = 1 →
        detectCurrentMode t = "p".toList) ∧
    (∀ t, (pyStrip t).isEmpty = false → (splitNl (pyStrip t)).length ≠ 1 →
        containsSub (joinNl (splitNl (pyStrip t))) "//".toList = true →
        containsSub (joinNl (splitNl (pyStrip t))) "JavaScript syntax".toList = true →
        detectCurrentMode t = "j".toList) ∧
    (∀ t, (pyStrip t).isEmpty = false → (splitNl (pyStrip t)).length ≠ 1 →
        (containsSub (joinNl (splitNl (pyStrip t))) "//".toList &&
          containsSub (joinNl (splitNl (pyStrip t))) "JavaScript syntax".toList)
          = false →
        containsSub (joinNl (splitNl (pyStrip t))) "//".toList = true →
        containsSub (joinNl (splitNl (pyStrip t)))
          "annotated Excel syntax".toList = true →
        detectCurrentMode t = "a".toList) ∧
    (∀ t, (pyStrip t).isEmpty = false → (splitNl (pyStrip t)).length ≠ 1 →
        (containsSub (joinNl (splitNl (pyStrip t))) "//".toList &&
          containsSub (joinNl (splitNl (pyStrip t))) "JavaScript syntax".toList)
          = false →
        (containsSub (joinNl (splitNl (pyStrip t))) "//".toList &&
          containsSub (joinNl (splitNl (pyStrip t)))
            "annotated Excel syntax".toList) = false →
        containsSub (joinNl (splitNl (pyStrip t))) "//".toList = true →
        (containsSub (joinNl (splitNl (pyStrip t)))
            "plain Excel syntax".toList ||
          containsSub (joinNl (splitNl (pyStrip t)))
            "Excel Formula".toList) = true →
        detectCurrentMode t = "a".toList) ∧
    (∀ t, (pyStrip t).isEmpty = false → (splitNl (pyStrip t)).length ≠ 1 →
        (containsSub (joinNl (splitNl (pyStrip t))) "//".toList &&
          containsSub (joinNl (splitNl (pyStrip t))) "JavaScript syntax".toList)
          = false →
        (containsSub (joinNl (splitNl (pyStrip t))) "//".toList &&
          containsSub (joinNl (splitNl (pyStrip t)))
            "annotated Excel syntax".toList) = false →
        (containsSub (joinNl (splitNl (pyStrip t))) "//".toList &&
          (containsSub (joinNl (splitNl (pyStrip t)))
              "plain Excel syntax".toList ||
            containsSub (joinNl (splitNl (pyStrip t)))
              "Excel Formula".toList)) = false →
        (splitNl (pyStrip t)).any
          (fun l => "    ".toList.isPrefixOf l || l.take 1 = ['\t']) = true →
        (containsSub (joinNl (splitNl (pyStrip t))) "\"".toList &&
          (containsSub (joinNl (splitNl (pyStrip t))) "SUM".toList ||
            containsSub (joinNl (splitNl (pyStrip t))) "IF".toList ||
            containsSub (joinNl (splitNl (pyStrip t))) "VLOOKUP".toList))
          = true →
        detectCurrentMode t = "j".toList) ∧
    (∀ t, (pyStrip t).isEmpty = false → (splitNl (pyStrip t)).length ≠ 1 →
        (containsSub (joinNl (splitNl (pyStrip t))) "//".toList &&
          containsSub (joinNl (splitNl (pyStrip t))) "JavaScript syntax".toList)
          = false →
        (containsSub (joinNl (splitNl (pyStrip t))) "//".toList &&
          containsSub (joinNl (splitNl (pyStrip t)))
            "annotated Excel syntax".toList) = false →
        (containsSub (joinNl (splitNl (pyStrip t))) "//".toList &&
          (containsSub (joinNl (splitNl (pyStrip t)))
              "plain Excel syntax".toList ||
            containsSub (joinNl (splitNl (pyStrip t)))
              "Excel Formula".toList)) = false →
        (splitNl (pyStrip t)).any
          (fun l => "    ".toList.isPrefixOf l || l.take 1 = ['\t']) = true →
        (containsSub (joinNl (splitNl (pyStrip t))) "\"".toList &&
          (containsSub (joinNl (splitNl (pyStrip t))) "SUM".toList ||
            containsSub (joinNl (splitNl (pyStrip t))) "IF".toList ||
            containsSub (joinNl (splitNl (pyStrip t))) "VLOOKUP".toList))
          = false →
        detectCurrentMode t = "a".toList) ∧
    (∀ t, (pyStrip t).isEmpty = false → (splitNl (pyStrip t)).length ≠ 1 →
        (containsSub (joinNl (splitNl (pyStrip t))) "//".toList &&
          containsSub (joinNl (splitNl (pyStrip t))) "JavaScript syntax".toList)
          = false →
        (containsSub (joinNl (splitNl (pyStrip t))) "//".toList &&
          containsSub (joinNl (splitNl (pyStrip t)))
            "annotated Excel syntax".toList) = false →
        (containsSub (joinNl (splitNl (pyStrip t))) "//".toList &&
          (containsSub (joinNl (splitNl (pyStrip t)))
              "plain Excel syntax".toList ||
            containsSub (joinNl (splitNl (pyStrip t)))
              "Excel Formula".toList)) = false →
        (splitNl (pyStrip t)).any
          (fun l => "    ".toList.isPrefixOf l || l.take 1 = ['\t']) = false →
        detectCurrentMode t = "p".toList) := by
  refine ⟨?_, ?_, ?_, ?_, ?_, ?_, ?_, ?_, ?_⟩
  · intro t
    simp only [detectCurrentMode]
    split_ifs <;> simp_all
  · intro t
    simp only [detectCurrentMode]
    split_ifs <;> simp_all
  · intro t h1 h2
    simp only [detectCurrentMode]
    split_ifs <;> simp_all
  · intro t h1 h2 h3 h4
    simp only [detectCurrentMode]
    split_ifs <;> simp_all
  · intro t h1 h2 h3 h4 h5
    simp only [detectCurrentMode]
    rw [if_neg (by rw [h1]; decide), if_neg h2, if_neg (by rw [h3]; decide),
      if_pos (by rw [h4, h5]; decide)]
  · intro t h1 h2 h3 h4 h5 h6
    simp only [detectCurrentMode]
    rw [if_neg (by rw [h1]; decide), if_neg h2, if_neg (by rw [h3]; decide),
      if_neg (by rw [h4]; decide), if_pos (by rw [h5, h6]; decide)]
  · intro t h1 h2 h3 h4 h5 h6 h7
    simp only [detectCurrentMode]
    rw [if_neg (by rw [h1]; decide), if_neg h2, if_neg (by rw [h3]; decide),
      if_neg (by rw [h4]; decide), if_neg (by rw [h5]; decide), if_pos h6,
      if_pos h7]
  · intro t h1 h2 h3 h4 h5 h6 h7
    simp only [detectCurrentMode]
    rw [if_neg (by rw [h1]; decide), if_neg h2, if_neg (by rw [h3]; decide),
      if_neg (by rw [h4]; decide), if_neg (by rw [h5]; decide), if_pos h6,
      if_neg (by rw [h7]; decide)]
  · intro t h1 h2 h3 h4 h5 h6
    simp only [detectCurrentMode]
    rw [if_neg (by rw [h1]; decide), if_neg h2, if_neg (by rw [h3]; decide),
      if_neg (by rw [h4]; decide), if_neg (by rw [h5]; decide),
      if_neg (by rw [h6]; decide)]

/-- C7 witness: the amended behaviour at concrete inputs — a single-line
formula is `p`; a JavaScript-mode fold is detected as `j`; the annotated and
plain header markers give `a`; indented marker-free input gives `a`, or `j`
when it carries quotes and a known function name; and unindented marker-free
multi-line input defaults to `p`. -/
theorem C7_detect_mode_witness :
    detectCurrentMode ("=A1".toList) = "p".toList ∧
    detectCurrentMode (foldFormula Mode.j ("=SUM(A1:A10)".toList)) = "j".toList ∧
    detectCurrentMode ("x\n// annotated Excel syntax".toList) = "a".toList ∧
    detectCurrentMode ("x\n// plain Excel syntax".toList) = "a".toList ∧
    detectCurrentMode ("foo\n    \"x\" SUM".toList) = "j".toList ∧
    detectCurrentMode ("foo\n    bar".toList) = "a".toList ∧
    detectCurrentMode ("abc\ndef".toList) = "p".toList := by
  refine ⟨?_, ?_, ?_, ?_, ?_, ?_, ?_⟩
  · exact C7_detect_mode.2.2.1 _ (by decide) (by decide)
  · exact C7_detect_mode.2.2.2.1 _ (by decide) (by decide) (by decide) (by decide)
  · exact C7_detect_mode.2.2.2.2.1 _ (by decide) (by decide) (by decide)
      (by decide) (by decide)
  · exact C7_detect_mode.2.2.2.2.2.1 _ (by decide) (by decide) (by decide)
      (by decide) (by decide) (by decide)
  · exact C7_detect_mode.2.2.2.2.2.2.1 _ (by decide) (by decide) (by decide)
      (by decide) (by decide) (by decide) (by decide)
  · exact C7_detect_mode.2.2.2.2.2.2.2.1 _ (by decide) (by decide) (by decide)
      (by decide) (by decide) (by decide) (by decide)
  · exact C7_detect_mode.2.2.2.2.2.2.2.2 _ (by decide) (by decide) (by decide)
      (by decide) (by decide) (by decide)

/-- Helper for C9: the group-building loop of the code equals the
specification-side split that keeps empty groups, once both are filtered to
the groups with non-whitespace content. -/
theorem splitCommasDepth_filter (ts : List Token) :
    ∀ acc depth, (splitCommasDepth acc depth ts).filter groupHasContent =
      (rawSplitAux acc depth ts).filter groupHasContent := by
  induction ts with
  | nil =>
    intro acc depth
    by_cases h : acc.isEmpty
    · rw [List.isEmpty_iff] at h
      subst h
      simp [splitCommasDepth, rawSplitAux, groupHasContent]
    · simp [splitCommasDepth, rawSplitAux, h]
  | cons t r ih =>
    intro acc depth
    simp only [splitCommasDepth, rawSplitAux]
    split_ifs with h1 h2 h3 h4
    · exact ih _ _
    · exact ih _ _
    · rw [List.isEmpty_iff] at h4
      subst h4
      simp [groupHasContent, List.filter_cons, ih]
    · simp only [List.filter_cons]
      by_cases hg : groupHasContent acc.reverse <;> simp [hg, ih]
    · exact ih _ _

/-- C9: splitting a parameter list at top-level commas discards exactly the
groups with no non-whitespace content; on `IF(A1,,B1)` the three raw groups
become two, the fold renders one separating comma (= two non-empty groups
minus one), and the empty argument is therefore not preserved through
fold/unfold. -/
theorem C9_empty_groups_dropped :
    (∀ ts, splitTopLevelCommas ts =
        (rawTopLevelGroups ts).filter groupHasContent) ∧
    (rawTopLevelGroups (parseExcelTokens "A1,,B1".toList)).length = 3 ∧
    (splitTopLevelCommas (parseExcelTokens "A1,,B1".toList)).length = 2 ∧
    countCommas (foldFormula Mode.p ("=IF(A1,,B1)".toList)) = 1 ∧
    roundTrip Mode.p ("=IF(A1,,B1)".toList) = "=IF(A1, B1)".toList :=
  ⟨fun ts => splitCommasDepth_filter ts [] 0, by decide, by decide,
    by decide, by decide⟩

end ExcelFmt

namespace ExcelFmt

set_option maxRecDepth 40000

/-- Helper for C6: `format_punctuation` renders a comma as itself in every
mode. -/
theorem fmtPunct_comma (m : Mode) : fmtPunctuation m [','] = [','] := rfl

/-- Helper for C6: a pair line carries a trailing comma exactly when further
groups follow. -/
theorem chunkPairs_flag (rest : List (List Token)) :
    (if (chunkPairs rest).1.isEmpty then (chunkPairs rest).2.isSome
     else true) = !rest.isEmpty := by
  match rest with
  | [] => rfl
  | [g] => rfl
  | x :: y :: t => simp [chunkPairs]

/-- Helper for C6: one unfolding of the specification-side pair rendering. -/
theorem renderPairsSpec_cons (m : Mode) (d : Nat) (bp : Bool)
    (pr : List Token × List Token) (ps : List (List Token × List Token)) :
    renderPairsSpec m d bp (pr :: ps) =
      letPairLineSpec m d pr (if ps.isEmpty then bp else true) ::
        renderPairsSpec m d bp ps := by
  cases ps <;> rfl

/-- Helper for C6: the embedded LET pair/body loop agrees with the
specification-side pairing layout. -/
theorem letArgsLoop_spec (m : Mode) (d : Nat)
    (seqFn : List Token → List (List Char)) :
    ∀ gs, letArgsLoop m d seqFn gs = letLayoutSpec m d seqFn gs := by
  intro gs
  induction gs using chunkPairs.induct with
  | case1 => rfl
  | case2 g => simp [letArgsLoop, letLayoutSpec, chunkPairs, renderPairsSpec]
  | case3 g1 g2 rest ih =>
    simp only [letArgsLoop, letLayoutSpec, chunkPairs, renderPairsSpec_cons,
      chunkPairs_flag, List.cons_append]
    refine List.cons_eq_cons.mpr ⟨?_, ?_⟩
    · by_cases hr : rest.isEmpty <;>
        simp [hr, letPairLineSpec, fmtPunct_comma, List.append_assoc]
    · simp only [letLayoutSpec] at ih
      exact ih

/-- C6: the LET policy consumes argument groups in pairs, renders each pair as
`name, value` on one combined line with a trailing comma exactly when a
further pair or the body follows, and lays the final unpaired group out by the
token-sequence processor one level deeper — between the `NAME(` header and the
`)` line.  On `=LET(x,A1,y,B1,x+y)`, `x` and its (mode-formatted) value `A1`
share one physical line in every mode, and unfolding returns the original
formula up to whitespace. -/
theorem C6_let_layout :
    (∀ fuel m name argToks d,
      processLet (fuel + 1) m name argToks d =
        functionCommentLines m name d ++
        [indentOf d ++ name ++ "( ".toList] ++
        letLayoutSpec m d (processSeq fuel m (d + 1))
          (splitTopLevelCommas argToks) ++
        [indentOf d ++ " )".toList]) ∧
    (splitNl (foldFormula Mode.a ("=LET(x,A1,y,B1,x+y)".toList))).any
        (fun l => containsSub l "x, A1".toList) = true ∧
    (splitNl (foldFormula Mode.p ("=LET(x,A1,y,B1,x+y)".toList))).any
        (fun l => containsSub l "x, A1".toList) = true ∧
    (splitNl (foldFormula Mode.j ("=LET(x,A1,y,B1,x+y)".toList))).any
        (fun l => containsSub l "x, \"A1\"".toList) = true ∧
    roundTrip Mode.a ("=LET(x,A1,y,B1,x+y)".toList) =
      "=LET(x, A1, y, B1, x + y)".toList ∧
    roundTrip Mode.j ("=LET(x,A1,y,B1,x+y)".toList) =
      "=LET(x, A1, y, B1, x+y)".toList ∧
    normalizeFormula (roundTrip Mode.a ("=LET(x,A1,y,B1,x+y)".toList)) =
      normalizeFormula ("=LET(x,A1,y,B1,x+y)".toList) := by
  refine ⟨?_, by decide, by decide, by decide, by decide, by decide, by decide⟩
  intro fuel m name argToks d
  simp only [processLet, engine]
  rw [letArgsLoop_spec]
  rfl

/-- Helper for C10: the JavaScript reverse cell-reference scan through a
quote-free inner text. -/
theorem revCellRefAux_through :
    ∀ (inner acc r : List Char), (∀ c ∈ inner, c ≠ '"') →
    revCellRefAux (some acc) (inner ++ '"' :: r) =
      (if startsCellRef (acc.reverse ++ inner) then acc.reverse ++ inner
       else '"' :: (acc.reverse ++ inner) ++ ['"']) ++ revCellRefAux none r := by
  intro inner
  induction inner with
  | nil =>
    intro acc r h
    simp [revCellRefAux]
  | cons c cs ih =>
    intro acc r h
    have hc : c ≠ '"' := h c (by simp)
    simp only [List.cons_append, revCellRefAux, hc, if_false, List.append_eq]
    rw [ih (c :: acc) r (fun x hx => h x (by simp [hx]))]
    simp [List.reverse_cons, List.append_assoc]

/-- C10: the JavaScript reverse cell-reference transform strips the quotes of
a quoted substring exactly when the inner text starts with a
`cell_ref_all_rgx` match — even when the whole inner text is not a cell
reference: `"A1 and more"` is unquoted (the match covers only `A1`), while
`"hello"` keeps its quotes. -/
theorem C10_js_unquote :
    (∀ inner, (∀ c ∈ inner, c ≠ '"') →
      revCellRefJs ('"' :: inner ++ ['"']) =
        if startsCellRef inner then inner else '"' :: inner ++ ['"']) ∧
    revCellRefJs ("\"A1 and more\"".toList) = "A1 and more".toList ∧
    cellRefLen false ("A1 and more".toList) = some 2 ∧
    revCellRefJs ("\"hello\"".toList) = "\"hello\"".toList := by
  refine ⟨?_, by decide, by decide, by decide⟩
  intro inner h
  show revCellRefAux none ('"' :: inner ++ ['"']) = _
  simp only [revCellRefAux, List.append_eq, if_true]
  have hth := revCellRefAux_through inner [] [] h
  simp only [List.reverse_nil, List.nil_append] at hth
  rw [hth]
  simp [revCellRefAux]

/-- C10 witness: the general unquoting rule at a concrete quote-free inner
text that starts with a cell-reference match. -/
theorem C10_js_unquote_witness :
    revCellRefJs ('"' :: "B2 tail".toList ++ ['"']) = "B2 tail".toList := by
  have h := C10_js_unquote.1 ("B2 tail".toList) (by decide)
  rw [h]
  decide

end ExcelFmt

namespace ExcelFmt

set_option maxRecDepth 40000

/-- Helper for C5: a marker at the head of a line is a `/` followed by
another `/`. -/
theorem marker_head_iff (c : Char) (r : List Char) :
    isMarkerAt (c :: r) 0 = true ↔ (c = '/' ∧ r.head? = some '/') := by
  cases r with
  | nil =>
    rw [isMarkerAt]
    simp [List.isPrefixOf]
  | cons x xs =>
    rw [isMarkerAt]
    simp [List.isPrefixOf]
    constructor
    · rintro ⟨h1, h2⟩
      exact ⟨h1.symm, h2.symm⟩
    · rintro ⟨h1, h2⟩
      exact ⟨h1.symm, h2.symm⟩

/-- Helper for C5: the index-walking marker scan of `_safe_remove_comments`
finds precisely the first position carrying a `//` whose nearest preceding
non-whitespace character is not a comma. -/
theorem findCommentPos_spec :
    ∀ (suf pre : List Char), findCommentPos pre suf =
      (List.range suf.length).find?
        (fun i => isMarkerAt suf i &&
          !commaJustBefore ((suf.take i).reverse ++ pre)) := by
  intro suf
  induction suf with
  | nil => intro pre; rfl
  | cons c r ih =>
    intro pre
    simp only [findCommentPos, List.length_cons, List.range_succ_eq_map]
    by_cases hm : ((decide (c = '/') && decide (r.head? = some '/')) &&
        !commaJustBefore pre) = true
    · have h1 := hm
      simp only [Bool.and_eq_true, decide_eq_true_eq] at h1
      rw [if_pos hm, List.find?_cons_of_pos]
      show (isMarkerAt (c :: r) 0 &&
        !commaJustBefore ((List.take 0 (c :: r)).reverse ++ pre)) = true
      simp only [List.take_zero, List.reverse_nil, List.nil_append,
        Bool.and_eq_true]
      exact ⟨(marker_head_iff c r).mpr ⟨h1.1.1, h1.1.2⟩, h1.2⟩
    · rw [if_neg hm, List.find?_cons_of_neg, List.find?_map]
      · rw [ih (c :: pre)]
        have hfe : ((fun i => isMarkerAt (c :: r) i &&
            !commaJustBefore ((List.take i (c :: r)).reverse ++ pre)) ∘ Nat.succ) =
            (fun i => isMarkerAt r i &&
              !commaJustBefore ((List.take i r).reverse ++ (c :: pre))) := by
          funext i
          show (isMarkerAt (c :: r) (i + 1) &&
            !commaJustBefore ((List.take (i + 1) (c :: r)).reverse ++ pre)) = _
          rw [isMarkerAt, isMarkerAt]
          simp [List.take_succ_cons, List.reverse_cons, List.append_assoc]
        rw [hfe]
      · show ¬ (isMarkerAt (c :: r) 0 &&
          !commaJustBefore ((List.take 0 (c :: r)).reverse ++ pre)) = true
        intro hcontra
        rw [List.take_zero, List.reverse_nil, List.nil_append] at hcontra
        rw [Bool.and_eq_true, marker_head_iff] at hcontra
        simp only [Bool.and_eq_true, decide_eq_true_eq] at hm
        tauto

/-- C5: comma-safe comment stripping.  `_safe_remove_comments` equals the
declarative rule: lines that are comments in their entirety are dropped; any
other line is cut (with trailing whitespace trimmed) at the first `//` marker
whose nearest preceding non-whitespace character is not a comma, and kept
whole when every marker is comma-protected — so a comment trailing a
comma-terminated argument never removes the comma.  Concretely,
`A1, // note` keeps its comma-protected marker while `A1 // note` is cut, and
a whole-comment line is dropped. -/
theorem C5_comment_rule :
    (∀ text, safeRemoveComments text = safeRemoveCommentsSpec text) ∧
    cleanInlineComment ("A1, // note".toList) = "A1, // note".toList ∧
    cleanInlineComment ("A1 // note".toList) = "A1".toList ∧
    safeRemoveComments ("  // whole comment".toList) = [] := by
  refine ⟨?_, by decide, by decide, by decide⟩
  intro text
  unfold safeRemoveComments safeRemoveCommentsSpec
  have hline : ∀ line, cleanInlineComment line = cleanLineSpec line := by
    intro line
    unfold cleanInlineComment cleanLineSpec firstSafeMarkerSpec commaPrecedes
    rw [findCommentPos_spec]
    simp only [List.append_nil]
  simp only [hline]

end ExcelFmt

namespace ExcelFmt

set_option maxRecDepth 40000

/-! ## Lexer reconstruction (C4, C8)

The tokenizer assigns consecutive, disjoint segments of the input to tokens;
the helper lemmas below establish that concatenating the token texts yields
the input with whitespace removed outside string literals. -/

/-- The takeWhile/dropWhile split preserves length. -/
theorem tw_dw_length (p : Char → Bool) (l : List Char) :
    (l.takeWhile p).length + (l.dropWhile p).length = l.length := by
  conv_rhs => rw [← List.takeWhile_append_dropWhile p l]
  rw [List.length_append]

/-- Taking the length of the `takeWhile` prefix recovers it. -/
theorem take_takeWhile (p : Char → Bool) (l : List Char) :
    l.take (l.takeWhile p).length = l.takeWhile p :=
  (List.prefix_iff_eq_take.mp (List.takeWhile_prefix p)).symm

/-- Dropping the length of the `takeWhile` prefix yields `dropWhile`. -/
theorem drop_takeWhile (p : Char → Bool) (l : List Char) :
    l.drop (l.takeWhile p).length = l.dropWhile p := by
  have h2 := List.take_append_drop (l.takeWhile p).length l
  rw [take_takeWhile] at h2
  exact List.append_cancel_left
    (h2.trans (List.takeWhile_append_dropWhile p l).symm)

/-- The six whitespace characters of the Python `isspace` model. -/
theorem pyIsSpace_elim {c : Char} (h : pyIsSpace c = true) :
    c = ' ' ∨ c = '\t' ∨ c = '\n' ∨ c = '\x0d' ∨ c = '\x0b' ∨ c = '\x0c' := by
  simp only [pyIsSpace, Bool.or_eq_true, decide_eq_true_eq] at h
  tauto

/-- Characters of a cell-reference match are neither whitespace nor a
quote. -/
theorem wordish_safe {c : Char}
    (h : isWordChar c = true ∨ c = '$' ∨ c = ':' ∨ c = '!') :
    pyIsSpace c = false ∧ c ≠ '"' := by
  constructor
  · by_contra hws
    simp only [Bool.not_eq_false] at hws
    rcases h with h | rfl | rfl | rfl
    · rcases pyIsSpace_elim hws with rfl | rfl | rfl | rfl | rfl | rfl <;>
        exact absurd h (by decide)
    · exact absurd hws (by decide)
    · exact absurd hws (by decide)
    · exact absurd hws (by decide)
  · intro heq
    subst heq
    rcases h with h | h | h | h <;> revert h <;> decide

/-- A whitespace-and-quote-free head passes through the outside-string
scan. -/
theorem so_step_safe {c : Char} (h1 : pyIsSpace c = false) (h2 : c ≠ '"')
    (r : List Char) :
    stripOutside false (c :: r) = c :: stripOutside false r := by
  rw [stripOutside]
  simp [h1, h2]

/-- Two safe characters pass through in sequence. -/
theorem so_two_safe {a b : Char} (h1 : pyIsSpace a = false) (h2 : a ≠ '"')
    (h3 : pyIsSpace b = false) (h4 : b ≠ '"') (r : List Char) :
    stripOutside false (a :: b :: r) = a :: b :: stripOutside false r := by
  rw [so_step_safe h1 h2, so_step_safe h3 h4]

/-- A block of safe characters passes through the outside-string scan. -/
theorem so_safe_append {xs : List Char}
    (h : ∀ c ∈ xs, pyIsSpace c = false ∧ c ≠ '"') (r : List Char) :
    stripOutside false (xs ++ r) = xs ++ stripOutside false r := by
  induction xs with
  | nil => simp
  | cons c cs ih =>
    have hc := h c (by simp)
    rw [List.cons_append, so_step_safe hc.1 hc.2,
      ih (fun x hx => h x (by simp [hx]))]
    rfl

/-- Inside a string literal every non-quote character is kept. -/
theorem so_instr_step {c : Char} (h : c ≠ '"') (r : List Char) :
    stripOutside true (c :: r) = c :: stripOutside true r := by
  rw [stripOutside]
  simp [h]

/-- A quote-free block passes through the inside-string scan. -/
theorem so_instr_append {xs : List Char} (h : ∀ c ∈ xs, c ≠ '"')
    (r : List Char) :
    stripOutside true (xs ++ r) = xs ++ stripOutside true r := by
  induction xs with
  | nil => simp
  | cons c cs ih =>
    rw [List.cons_append, so_instr_step (h c (by simp)),
      ih (fun x hx => h x (by simp [hx]))]
    rfl

/-- Opening a string literal. -/
theorem so_quote_open (r : List Char) :
    stripOutside false ('"' :: r) = '"' :: stripOutside true r := by
  rw [stripOutside]
  simp

/-- Closing a string literal. -/
theorem so_quote_close (r : List Char) :
    stripOutside true ('"' :: r) = '"' :: stripOutside false r := by
  rw [stripOutside]
  simp

/-- A quote-free tail of an unterminated string literal is kept whole. -/
theorem so_instr_all {xs : List Char} (h : ∀ c ∈ xs, c ≠ '"') :
    stripOutside true xs = xs := by
  have h2 := so_instr_append h ([] : List Char)
  simpa [stripOutside] using h2

/-- The head of a `dropWhile` residue fails the predicate. -/
theorem dropWhile_head_not {p : Char → Bool} {l : List Char} {c : Char}
    {r : List Char} (h : l.dropWhile p = c :: r) : p c = false := by
  induction l with
  | nil => simp at h
  | cons x xs ih =>
    rw [List.dropWhile_cons] at h
    split_ifs at h with hp
    · exact ih h
    · cases h
      simpa using hp

/-- Uppercase letters are word characters. -/
theorem upper_word {c : Char} (h : isUpperCh c = true) : isWordChar c = true := by
  simp only [isUpperCh, Bool.and_eq_true, decide_eq_true_eq] at h
  simp only [isWordChar, Bool.or_eq_true, Bool.and_eq_true, decide_eq_true_eq]
  tauto

/-- Digits are word characters. -/
theorem digit_word {c : Char} (h : isDigitCh c = true) : isWordChar c = true := by
  simp only [isDigitCh, Bool.and_eq_true, decide_eq_true_eq] at h
  simp only [isWordChar, Bool.or_eq_true, Bool.and_eq_true, decide_eq_true_eq]
  tauto

/-- Consumption and character content of a `[A-Z]+\$?\d+` core match. -/
theorem coreLen_spec {s : List Char} {n : Nat} (h : coreLen s = some n) :
    1 ≤ n ∧ n ≤ s.length ∧
    ∀ c ∈ s.take n, isWordChar c = true ∨ c = '$' := by
  simp only [coreLen] at h
  rw [drop_takeWhile] at h
  have hlen2 := tw_dw_length isUpperCh s
  split at h
  · exact absurd h (by simp)
  · rename_i hu
    split at h
    · rename_i s2 heq
      split at h
      · exact absurd h (by simp)
      · rename_i hd
        injection h with hn
        subst hn
        have hlen3 := tw_dw_length isDigitCh s2
        have hslen : (s.takeWhile isUpperCh).length + s2.length + 1 = s.length := by
          rw [heq] at hlen2
          simp only [List.length_cons] at hlen2
          omega
        have htake : s.take ((s.takeWhile isUpperCh).length + 1 +
            (s2.takeWhile isDigitCh).length) =
            s.takeWhile isUpperCh ++ '$' :: s2.takeWhile isDigitCh := by
          rw [show (s.takeWhile isUpperCh).length + 1 +
              (s2.takeWhile isDigitCh).length =
              (s.takeWhile isUpperCh).length +
                ((s2.takeWhile isDigitCh).length + 1) from by omega,
            List.take_add, take_takeWhile, drop_takeWhile, heq,
            List.take_succ_cons, take_takeWhile]
        refine ⟨by omega, by omega, ?_⟩
        intro c hc
        rw [htake] at hc
        rcases List.mem_append.mp hc with hc1 | hc2
        · exact Or.inl (upper_word (List.mem_takeWhile_imp hc1))
        · rcases List.mem_cons.mp hc2 with rfl | hc3
          · exact Or.inr rfl
          · exact Or.inl (digit_word (List.mem_takeWhile_imp hc3))
    · rename_i s1 hnot
      split at h
      · exact absurd h (by simp)
      · rename_i hd
        injection h with hn
        subst hn
        have hlen3 := tw_dw_length isDigitCh (s.dropWhile isUpperCh)
        have htake : s.take ((s.takeWhile isUpperCh).length +
            ((s.dropWhile isUpperCh).takeWhile isDigitCh).length) =
            s.takeWhile isUpperCh ++
              (s.dropWhile isUpperCh).takeWhile isDigitCh := by
          rw [List.take_add, take_takeWhile, drop_takeWhile, take_takeWhile]
        refine ⟨by omega, by omega, ?_⟩
        intro c hc
        rw [htake] at hc
        rcases List.mem_append.mp hc with hc1 | hc2
        · exact Or.inl (upper_word (List.mem_takeWhile_imp hc1))
        · exact Or.inl (digit_word (List.mem_takeWhile_imp hc2))

/-- Consumption and character content of the core-plus-optional-range
match. -/
theorem coreThenLen_spec {s : List Char} {n : Nat} (h : coreThenLen s = some n) :
    1 ≤ n ∧ n ≤ s.length ∧
    ∀ c ∈ s.take n, isWordChar c = true ∨ c = '$' ∨ c = ':' := by
  simp only [coreThenLen] at h
  split at h
  · exact absurd h (by simp)
  · rename_i n1 hcore
    obtain ⟨h1a, h1b, h1c⟩ := coreLen_spec hcore
    split at h
    · rename_i s2 heq
      have hdl := List.length_drop n1 s
      rw [heq] at hdl
      simp only [List.length_cons] at hdl
      split at h
      · rename_i n2 hcore2
        obtain ⟨h2a, h2b, h2c⟩ := coreLen_spec hcore2
        split at h
        · injection h with hn
          subst hn
          have htake : s.take (n1 + 1 + n2) = s.take n1 ++ ':' :: s2.take n2 := by
            rw [show n1 + 1 + n2 = n1 + (n2 + 1) from by omega,
              List.take_add, heq, List.take_succ_cons]
          refine ⟨by omega, by omega, ?_⟩
          intro c hc
          rw [htake] at hc
          rcases List.mem_append.mp hc with hc1 | hc2
          · exact (h1c c hc1).imp id Or.inl
          · rcases List.mem_cons.mp hc2 with rfl | hc3
            · exact Or.inr (Or.inr rfl)
            · exact (h2c c hc3).imp id Or.inl
        · split at h
          · injection h with hn
            subst hn
            exact ⟨h1a, h1b, fun c hc => (h1c c hc).imp id Or.inl⟩
          · exact absurd h (by simp)
      · split at h
        · injection h with hn
          subst hn
          exact ⟨h1a, h1b, fun c hc => (h1c c hc).imp id Or.inl⟩
        · exact absurd h (by simp)
    · rename_i s1 hnot
      split at h
      · injection h with hn
        subst hn
        exact ⟨h1a, h1b, fun c hc => (h1c c hc).imp id Or.inl⟩
      · exact absurd h (by simp)

/-- Consumption and character content of a full `cell_ref_all_rgx` match. -/
theorem cellRefLen_spec {p : Bool} {s : List Char} {n : Nat}
    (h : cellRefLen p s = some n) :
    1 ≤ n ∧ n ≤ s.length ∧
    ∀ c ∈ s.take n, isWordChar c = true ∨ c = '$' ∨ c = ':' ∨ c = '!' := by
  simp only [cellRefLen] at h
  split at h
  · exact absurd h (by simp)
  · rename_i hp
    split at h
    · rename_i n0 heq
      injection h with hn
      subst hn
      split at heq
      · exact absurd heq (by simp)
      · rename_i hw
        split at heq
        · rename_i s2 heq2
          split at heq
          · rename_i n3 heq3
            injection heq with hn0
            subst hn0
            obtain ⟨h3a, h3b, h3c⟩ := coreThenLen_spec heq3
            rw [drop_takeWhile] at heq2
            have hlen2 := tw_dw_length isWordChar s
            have hdl : (s.takeWhile isWordChar).length + s2.length + 1 =
                s.length := by
              rw [heq2] at hlen2
              simp only [List.length_cons] at hlen2
              omega
            have htake : s.take ((s.takeWhile isWordChar).length + 1 + n3) =
                s.takeWhile isWordChar ++ '!' :: s2.take n3 := by
              rw [show (s.takeWhile isWordChar).length + 1 + n3 =
                  (s.takeWhile isWordChar).length + (n3 + 1) from by omega,
                List.take_add, take_takeWhile, drop_takeWhile, heq2,
                List.take_succ_cons]
            refine ⟨by omega, by omega, ?_⟩
            intro c hc
            rw [htake] at hc
            rcases List.mem_append.mp hc with hc1 | hc2
            · exact Or.inl (List.mem_takeWhile_imp hc1)
            · rcases List.mem_cons.mp hc2 with rfl | hc3
              · exact Or.inr (Or.inr (Or.inr rfl))
              · exact (h3c c hc3).imp id (fun hx => hx.imp id Or.inl)
          · exact absurd heq (by simp)
        · exact absurd heq (by simp)
    · rename_i hnone
      obtain ⟨ha, hb, hc⟩ := coreThenLen_spec h
      exact ⟨ha, hb, fun c hcm => (hc c hcm).imp id (fun hx => hx.imp id Or.inl)⟩

/-- Concatenation of a token's text with the rest. -/
theorem joinTexts_cons (t : Token) (ts : List Token) :
    joinTexts (t :: ts) = t.text ++ joinTexts ts := by
  simp [joinTexts]

/-- The main lexer invariant: with sufficient fuel, the concatenated token
texts are the input with whitespace removed outside string literals. -/
theorem tokenizeFuel_join :
    ∀ (fuel : Nat) (s : List Char) (prevW : Bool), s.length < fuel →
      joinTexts (tokenizeFuel fuel prevW s) = stripOutside false s := by
  intro fuel
  induction fuel with
  | zero =>
    intro s prevW h
    omega
  | succ fuel ih =>
    intro s prevW hlen
    cases s with
    | nil => rfl
    | cons c r =>
      simp only [List.length_cons] at hlen
      by_cases hws : pyIsSpace c = true
      · have hq : c ≠ '"' := fun he => by subst he; exact absurd hws (by decide)
        simp only [tokenizeFuel]
        rw [if_pos hws, ih r false (by omega), stripOutside]
        simp [hws, hq]
      · by_cases hq : c = '"'
        · subst hq
          simp only [tokenizeFuel, if_true]
          rw [if_neg hws]
          have hins : ∀ x ∈ r.takeWhile (fun ch => decide (ch ≠ '"')),
              x ≠ '"' := by
            intro x hx
            have := List.mem_takeWhile_imp hx
            simpa using this
          cases hdw : r.dropWhile (fun ch => decide (ch ≠ '"')) with
          | nil =>
            simp only [hdw]
            have hr : r = r.takeWhile (fun ch => decide (ch ≠ '"')) := by
              conv_lhs => rw [← List.takeWhile_append_dropWhile
                (fun ch => decide (ch ≠ '"')) r]
              rw [hdw, List.append_nil]
            rw [so_quote_open, joinTexts_cons]
            conv_rhs => rw [hr, so_instr_all hins]
            simp [joinTexts]
          | cons q rest2 =>
            simp only [hdw]
            have hqc : q = '"' := by
              have := dropWhile_head_not hdw
              simpa using this
            subst hqc
            have hr : r = r.takeWhile (fun ch => decide (ch ≠ '"')) ++
                '"' :: rest2 := by
              conv_lhs => rw [← List.takeWhile_append_dropWhile
                (fun ch => decide (ch ≠ '"')) r]
              rw [hdw]
            have hlr : rest2.length < fuel := by
              have h1 := tw_dw_length (fun ch => decide (ch ≠ '"')) r
              rw [hdw] at h1
              simp only [List.length_cons] at h1
              omega
            rw [joinTexts_cons, ih rest2 false hlr, so_quote_open]
            conv_rhs => rw [hr, so_instr_append hins, so_quote_close]
            simp [List.append_assoc]
        · simp only [tokenizeFuel]
          rw [if_neg hws, if_neg hq]
          cases hcr : cellRefLen prevW (c :: r) with
          | some n =>
            simp only [hcr]
            obtain ⟨ha, hb, hc⟩ := cellRefLen_spec hcr
            have hsafe : ∀ x ∈ (c :: r).take n,
                pyIsSpace x = false ∧ x ≠ '"' :=
              fun x hx => wordish_safe (hc x hx)
            rw [joinTexts_cons]
            have hlend : ((c :: r).drop n).length < fuel := by
              rw [List.length_drop]
              simp only [List.length_cons]
              omega
            rw [ih _ _ hlend]
            conv_rhs => rw [← List.take_append_drop n (c :: r)]
            rw [so_safe_append hsafe]
          | none =>
            simp only [hcr]
            have x1 : pyIsSpace c = false := by simpa using hws
            cases r with
            | nil =>
              rw [so_step_safe x1 hq]
              split_ifs <;> simp [joinTexts, stripOutside]
            | cons r1 rest2 =>
              simp only [List.length_cons] at hlen
              simp only []
              split_ifs with h2 hop hpc
              · rw [joinTexts_cons, ih rest2 false (by omega)]
                simp only [Bool.or_eq_true, Bool.and_eq_true,
                  decide_eq_true_eq] at h2
                rcases h2 with (⟨rfl, rfl⟩ | ⟨rfl, rfl⟩) | ⟨rfl, rfl⟩ <;>
                  exact (so_two_safe (by decide) (by decide) (by decide)
                    (by decide) rest2).symm
              · rw [joinTexts_cons, ih (r1 :: rest2) false (by simp; omega),
                  so_step_safe x1 hq]
                rfl
              · rw [joinTexts_cons, ih (r1 :: rest2) false (by simp; omega),
                  so_step_safe x1 hq]
                rfl
              · rw [joinTexts_cons]
                have hdwlen : ((r1 :: rest2).dropWhile
                    (fun ch => !pyIsSpace ch && !isWordStop ch)).length <
                    fuel := by
                  have h1 := tw_dw_length
                    (fun ch => !pyIsSpace ch && !isWordStop ch) (r1 :: rest2)
                  simp only [List.length_cons] at h1
                  omega
                rw [ih _ _ hdwlen]
                have hsafe : ∀ x ∈ c :: (r1 :: rest2).takeWhile
                    (fun ch => !pyIsSpace ch && !isWordStop ch),
                    pyIsSpace x = false ∧ x ≠ '"' := by
                  intro x hx
                  rcases List.mem_cons.mp hx with rfl | hx2
                  · exact ⟨x1, hq⟩
                  · have hp := List.mem_takeWhile_imp hx2
                    simp only [Bool.and_eq_true, Bool.not_eq_true'] at hp
                    refine ⟨hp.1, ?_⟩
                    intro he
                    subst he
                    exact absurd hp.2 (by decide)
                conv_rhs => rw [show (r1 :: rest2 : List Char) =
                  (r1 :: rest2).takeWhile
                    (fun ch => !pyIsSpace ch && !isWordStop ch) ++
                  (r1 :: rest2).dropWhile
                    (fun ch => !pyIsSpace ch && !isWordStop ch) from
                  (List.takeWhile_append_dropWhile _ _).symm]
                rw [show (c :: ((r1 :: rest2).takeWhile
                    (fun ch => !pyIsSpace ch && !isWordStop ch) ++
                    (r1 :: rest2).dropWhile
                    (fun ch => !pyIsSpace ch && !isWordStop ch))) =
                  (c :: (r1 :: rest2).takeWhile
                    (fun ch => !pyIsSpace ch && !isWordStop ch)) ++
                  (r1 :: rest2).dropWhile
                    (fun ch => !pyIsSpace ch && !isWordStop ch) from rfl]
                rw [so_safe_append hsafe]

/-- Removing whitespace outside strings preserves every non-whitespace
character count. -/
theorem count_stripOutside (ch : Char) (h : pyIsSpace ch = false) :
    ∀ (s : List Char) (b : Bool), (stripOutside b s).count ch = s.count ch := by
  intro s
  induction s with
  | nil => intro b; cases b <;> rfl
  | cons c r ih =>
    intro b
    cases b
    · rw [stripOutside]
      by_cases hq : c = '"'
      · subst hq
        simp [List.count_cons, ih]
      · by_cases hw : pyIsSpace c = true
        · have hne : c ≠ ch := fun he => by subst he; rw [hw] at h; cases h
          simp [hq, hw, ih, List.count_cons, hne, beq_iff_eq]
        · simp [hq, hw, ih, List.count_cons]
    · rw [stripOutside]
      by_cases hq : c = '"' <;> simp [hq, ih, List.count_cons]

/-- C4 (counterexample): the concatenated token texts do not in general equal
the body with all whitespace characters removed — the body `"a b"` is one
string token whose text keeps the interior space. -/
theorem C4_counterexample :
    joinTexts (parseExcelTokens ("\"a b\"".toList)) ≠
      ("\"a b\"".toList).filter (fun c => !pyIsSpace c) := by decide

/-- C4 (amended): the tokens of `_parse_excel_tokens` are consecutive
disjoint segments of the input, and the concatenation of their `text` fields
equals the body with whitespace removed outside string literals (whitespace
inside a quoted literal is part of the string token and kept). -/
theorem C4_tokens_reconstruct :
    ∀ body : List Char, joinTexts (parseExcelTokens body) =
      stripOutside false body := by
  intro body
  exact tokenizeFuel_join (body.length + 1) body false (by omega)

/-- C8: the tokenizer is total — it is defined for every input string
(including unterminated strings and stray characters), and every
non-whitespace input character is assigned to some token: each such
character occurs in the concatenated token texts exactly as often as in the
input. -/
theorem C8_lexer_total :
    ∀ (body : List Char) (ch : Char), pyIsSpace ch = false →
      (joinTexts (parseExcelTokens body)).count ch = body.count ch := by
  intro body ch h
  show (joinTexts (tokenizeFuel (body.length + 1) false body)).count ch = _
  rw [tokenizeFuel_join (body.length + 1) body false (by omega)]
  exact count_stripOutside ch h body false

/-- C8 witness: character conservation at a concrete malformed-ish input. -/
theorem C8_lexer_total_witness :
    (joinTexts (parseExcelTokens ("SUM( A1 , \"x y\" )".toList))).count 'A' =
      ("SUM( A1 , \"x y\" )".toList).count 'A' :=
  C8_lexer_total _ 'A' (by decide)

end ExcelFmt
